import Mathlib

/- Verification of the expense-extraction pipeline of app.py.

   Text is modelled as List Char.  The regular expressions used by the
   source are embedded as backtracking matchers in continuation style: a
   matcher consumes a prefix of its input and returns the number of
   characters consumed, trying alternatives in exactly the order of the
   Python regex engine (greedy repetition, leftmost search position first).
   Monetary amounts are represented exactly in cents (a Nat); converting a
   matched token to a Python float is monotone in this value, so maxima and
   equality of extracted amounts agree with the source.  The external
   date parser (pandas.to_datetime, an outside library) and the wall clock
   (datetime.now) are passed as parameters, a failing parse being modelled
   by Option.none, which is what the try/except block around strftime
   produces in the source. -/

set_option maxHeartbeats 2000000

/-- Python text.replace of a comma by a dot (app.py line 124), characterwise. -/
def commaToDot (c : Char) : Char := if c = ',' then '.' else c

/-- The whitespace characters recognised by Python str.strip, str.split and
the regex class backslash-s, restricted to ASCII (11 and 12 are vertical
tab and form feed). -/
def isPySpace (c : Char) : Bool :=
  c = ' ' || c = '\t' || c = '\n' || c = '\r' || c = Char.ofNat 11 || c = Char.ofNat 12

/-- Python str.lower, characterwise (ASCII letters). -/
def pyLower (l : List Char) : List Char := l.map Char.toLower

/-- Matcher continuations: consume a prefix of the input, return its length. -/
abbrev K := List Char → Option Nat

/-- End of a regex: matches the empty prefix. -/
def kEnd : K := fun _ => some 0

/-- A single literal character followed by the rest of the regex. -/
def kChar (c : Char) (k : K) : K := fun s =>
  match s with
  | [] => none
  | a :: rest =>
    if a = c then
      match k rest with
      | some n => some (n + 1)
      | none => none
    else none

/-- A character class given by a list of characters, then the rest. -/
def kCharIn (cs : List Char) (k : K) : K := fun s =>
  match s with
  | [] => none
  | a :: rest =>
    if a ∈ cs then
      match k rest with
      | some n => some (n + 1)
      | none => none
    else none

/-- An optional literal character (regex c?), greedy: the alternative that
consumes the character is tried first. -/
def kOpt (c : Char) (k : K) : K := fun s =>
  match s with
  | [] => k []
  | a :: rest =>
    if a = c then
      match k rest with
      | some n => some (n + 1)
      | none => k (a :: rest)
    else k (a :: rest)

/-- Greedy unbounded repetition (regex p*) with full backtracking: longer
repetitions are tried before shorter ones. -/
def kStar (p : Char → Bool) (k : K) : List Char → Option Nat
  | [] => k []
  | c :: rest =>
    if p c then
      match kStar p k rest with
      | some n => some (n + 1)
      | none => k (c :: rest)
    else k (c :: rest)

/-- Greedy repetition at least once (regex p+) with full backtracking. -/
def kPlus (p : Char → Bool) (k : K) : List Char → Option Nat
  | [] => none
  | c :: rest =>
    if p c then
      match kPlus p k rest with
      | some n => some (n + 1)
      | none =>
        match k rest with
        | some n => some (n + 1)
        | none => none
    else none

/-- Greedy bounded repetition (regex p{lo,hi}) with full backtracking:
consuming a further character is always tried before stopping, and stopping
is allowed only once the lower bound has been reached. -/
def kRep (p : Char → Bool) (lo hi : Nat) (k : K) : K := fun s =>
  match hi, s with
  | 0, s => if lo = 0 then k s else none
  | _ + 1, [] => if lo = 0 then k [] else none
  | hi' + 1, c :: rest =>
    if p c then
      match kRep p (lo - 1) hi' k rest with
      | some n => some (n + 1)
      | none => if lo = 0 then k (c :: rest) else none
    else if lo = 0 then k (c :: rest) else none

/-- re.search: try the matcher at every position from the left, returning
the matched substring of the first position where it succeeds. -/
def searchPat (m : K) : List Char → Option (List Char)
  | [] => none
  | c :: rest =>
    match m (c :: rest) with
    | some n => some ((c :: rest).take n)
    | none => searchPat m rest

/-- The amount token regex of app.py line 124: one or more digits, a literal
dot, exactly two digits. -/
def amountK : K := kPlus Char.isDigit (kChar '.' (kRep Char.isDigit 2 2 kEnd))

/-- re.findall for the amount regex: scan left to right, and after a match
resume immediately after it (non-overlapping matches).  The fuel argument
only bounds the recursion; it is never exhausted because every match of
amountK consumes at least four characters, so fuel equal to the length of
the text makes this function agree with re.findall. -/
def findallAux : Nat → List Char → List (List Char)
  | 0, _ => []
  | fuel + 1, s =>
    match s with
    | [] => []
    | c :: rest =>
      match amountK (c :: rest) with
      | some n => (c :: rest).take n :: findallAux fuel ((c :: rest).drop n)
      | none => findallAux fuel rest

/-- All amount tokens of the text, in order of occurrence. -/
def findallAmounts (s : List Char) : List (List Char) := findallAux s.length s

/-- Decimal value of a digit string. -/
def digitsToNat (l : List Char) : Nat := l.foldl (fun a c => a * 10 + (c.toNat - 48)) 0

/-- Value in cents of a matched amount token (digits, a dot, two digits).
Python converts the token with float; that conversion is monotone in this
exact value, so comparisons and maxima agree. -/
def amountVal (m : List Char) : Nat :=
  digitsToNat (m.takeWhile (fun c => !(c == '.'))) * 100 +
    digitsToNat ((m.dropWhile (fun c => !(c == '.'))).drop 1)

/-- The list of candidate amounts of app.py line 124: the comma of the text
is first replaced by a dot, then every amount token is converted. -/
def amountVals (text : List Char) : List Nat :=
  (findallAmounts (text.map commaToDot)).map amountVal

/-- np.max(amounts) if amounts else 0.0 (app.py line 125), in cents. -/
def total_amount (text : List Char) : Nat :=
  match amountVals text with
  | [] => 0
  | a :: rest => rest.foldl max a

/-- Date pattern 1 of app.py line 128: four digits, hyphen, two digits,
hyphen, two digits. -/
def matchP1 : K :=
  kRep Char.isDigit 4 4 (kChar '-' (kRep Char.isDigit 2 2 (kChar '-' (kRep Char.isDigit 2 2 kEnd))))

/-- Date pattern 2 of app.py line 129: one or two digits, slash, one or two
digits, slash, two to four digits. -/
def matchP2 : K :=
  kRep Char.isDigit 1 2 (kChar '/' (kRep Char.isDigit 1 2 (kChar '/' (kRep Char.isDigit 2 4 kEnd))))

/-- Date pattern 3 of app.py line 130: as pattern 2 with hyphens. -/
def matchP3 : K :=
  kRep Char.isDigit 1 2 (kChar '-' (kRep Char.isDigit 1 2 (kChar '-' (kRep Char.isDigit 2 4 kEnd))))

/-- Date pattern 4 of app.py line 131: three to nine letters, whitespace,
one or two digits, an optional comma, whitespace, two to four digits.  The
re.IGNORECASE flag of the source only affects the letter class, which is
already case insensitive. -/
def matchP4 : K :=
  kRep Char.isAlpha 3 9 (kPlus isPySpace (kRep Char.isDigit 1 2
    (kOpt ',' (kPlus isPySpace (kRep Char.isDigit 2 4 kEnd)))))

/-- The date patterns in the priority order of app.py lines 127 to 132. -/
def date_patterns : List K := [matchP1, matchP2, matchP3, matchP4]

/-- The loop of app.py lines 134 to 138: search each pattern in order and
stop at the first pattern that matches anywhere. -/
def firstMatch : List K → List Char → Option (List Char)
  | [], _ => none
  | p :: ps, text =>
    match searchPat p text with
    | some s => some s
    | none => firstMatch ps text

/-- The date candidate of the text (variable date_found of the source). -/
def date_found (text : List Char) : Option (List Char) := firstMatch date_patterns text

/-- Calendar dates, as produced by the external date parser and the wall
clock. -/
structure PyDate where
  year : Nat
  month : Nat
  day : Nat
deriving DecidableEq, Repr

/-- Gregorian leap year rule. -/
def isLeap (y : Nat) : Bool := (y % 4 = 0 && !(y % 100 = 0)) || y % 400 = 0

/-- Number of days of a month. -/
def monthLen (y m : Nat) : Nat :=
  if m = 2 then (if isLeap y then 29 else 28)
  else if m = 4 ∨ m = 6 ∨ m = 9 ∨ m = 11 then 30 else 31

/-- A calendar-valid date whose year can be printed with four digits. -/
def PyDate.valid (d : PyDate) : Bool :=
  decide (1000 ≤ d.year) && decide (d.year ≤ 9999) &&
    decide (1 ≤ d.month) && decide (d.month ≤ 12) &&
    decide (1 ≤ d.day) && decide (d.day ≤ monthLen d.year d.month)

/-- The character of a decimal digit. -/
def digitChar (n : Nat) : Char := Char.ofNat (48 + n)

/-- Numeric value of a digit character. -/
def charVal (c : Char) : Nat := c.toNat - 48

/-- Two digit zero padding, as strftime directives m and d produce. -/
def pad2 (n : Nat) : List Char := [digitChar (n / 10 % 10), digitChar (n % 10)]

/-- Four digit zero padding, as the strftime directive Y produces for the
years of PyDate.valid. -/
def pad4 (n : Nat) : List Char :=
  [digitChar (n / 1000 % 10), digitChar (n / 100 % 10), digitChar (n / 10 % 10), digitChar (n % 10)]

/-- strftime with format Y-m-d applied to a date. -/
def fmtISO (d : PyDate) : List Char := pad4 d.year ++ '-' :: (pad2 d.month ++ '-' :: pad2 d.day)

/-- A string is a valid ISO calendar date: ten characters shaped
dddd-dd-dd whose three numbers form a calendar-valid date. -/
def isValidISODate (s : List Char) : Bool :=
  match s with
  | [y1, y2, y3, y4, s1, m1, m2, s2, d1, d2] =>
    y1.isDigit && y2.isDigit && y3.isDigit && y4.isDigit &&
      m1.isDigit && m2.isDigit && d1.isDigit && d2.isDigit &&
      (s1 == '-') && (s2 == '-') &&
      PyDate.valid
        ⟨charVal y1 * 1000 + charVal y2 * 100 + charVal y3 * 10 + charVal y4,
         charVal m1 * 10 + charVal m2,
         charVal d1 * 10 + charVal d2⟩
  | _ => false

/-- Lines 140 to 145 of app.py: start from the formatted current date; if a
candidate was found, try the external parser on it; a successful parse is
formatted with strftime, any failure is swallowed by the bare except and
the current date stands. -/
def date_parsed (text : List Char) (pd : List Char → Option PyDate) (today : PyDate) : List Char :=
  match date_found text with
  | none => fmtISO today
  | some s =>
    match pd s with
    | none => fmtISO today
    | some d => fmtISO d

/-- Python str.strip: discard leading and trailing whitespace. -/
def pyStrip (l : List Char) : List Char :=
  ((l.dropWhile isPySpace).reverse.dropWhile isPySpace).reverse

/-- Python str.split with a newline separator: keeps empty segments and
always returns at least one segment. -/
def splitNL : List Char → List (List Char)
  | [] => [[]]
  | c :: rest =>
    if c = '\n' then [] :: splitNL rest
    else
      match splitNL rest with
      | [] => [[c]]
      | seg :: segs => (c :: seg) :: segs

/-- Helper of pySplitWS with an accumulator of the current word reversed. -/
def splitWSAux : List Char → List Char → List (List Char)
  | [], acc => if acc = [] then [] else [acc.reverse]
  | c :: rest, acc =>
    if isPySpace c then
      if acc = [] then splitWSAux rest []
      else acc.reverse :: splitWSAux rest []
    else splitWSAux rest (c :: acc)

/-- Python str.split with no argument: split on whitespace runs, discarding
empty tokens. -/
def pySplitWS (l : List Char) : List (List Char) := splitWSAux l []

/-- Whether needle is a prefix of the second list. -/
def leadsWith : List Char → List Char → Bool
  | [], _ => true
  | _ :: _, [] => false
  | a :: n1, b :: n2 => (a == b) && leadsWith n1 n2

/-- Python substring membership: needle in hay. -/
def containsSub (needle : List Char) : List Char → Bool
  | [] => leadsWith needle []
  | c :: rest => leadsWith needle (c :: rest) || containsSub needle rest

/-- The anchored skip regex of app.py line 151: an optional dollar sign,
one or more digits, an optional dot and further digits; or one or two
digits, a slash or hyphen, one or two digits.  The left alternative is
tried first, as in the source. -/
def vendorSkipK : K := fun s =>
  match kOpt '$' (kPlus Char.isDigit (kOpt '.' (kStar Char.isDigit kEnd))) s with
  | some n => some n
  | none => kRep Char.isDigit 1 2 (kCharIn ['/', '-'] (kRep Char.isDigit 1 2 kEnd)) s

/-- The content condition of app.py line 152 on a stripped line: longer
than three characters and containing neither receipt nor tax after
lowercasing. -/
def vendorCond (line : List Char) : Bool :=
  decide (line.length > 3) && !(containsSub ("receipt".data) (pyLower line)) &&
    !(containsSub ("tax".data) (pyLower line))

/-- A stripped line from which the vendor is taken: it does not match the
skip regex at its start and it satisfies the content condition. -/
def survives (line : List Char) : Bool := !(vendorSkipK line).isSome && vendorCond line

/-- The vendor loop of app.py lines 148 to 156: walk the lines, strip each,
skip lines matching the skip regex or failing the content condition, and
return the first whitespace token of the first surviving line; default
Unknown. -/
def findVendor : List (List Char) → List Char
  | [] => "Unknown".data
  | l :: ls =>
    if (vendorSkipK (pyStrip l)).isSome then findVendor ls
    else
      if vendorCond (pyStrip l) then
        match pySplitWS (pyStrip l) with
        | [] => findVendor ls
        | w :: _ => w
      else findVendor ls

/-- The vendor of the text: the line list is the stripped text split on
newlines (app.py line 147). -/
def vendor_of (text : List Char) : List Char := findVendor (splitNL (pyStrip text))

/-- The record returned by parse_expense_data (app.py lines 158 to 163);
amount is in cents. -/
structure ExpenseRecord where
  amount : Nat
  date : List Char
  vendor : List Char
  description : List Char
deriving DecidableEq, Repr

/-- parse_expense_data of app.py lines 123 to 163.  The external date
parser pd and the current date today are parameters; everything else is
computed from the text exactly as in the source. -/
def parse_expense_data (text : List Char) (pd : List Char → Option PyDate) (today : PyDate) :
    ExpenseRecord :=
  { amount := total_amount text
    date := date_parsed text pd today
    vendor := vendor_of text
    description := (pyStrip text).take 200 }

/-- EXPENSE_CATEGORIES of app.py lines 28 to 36, as an ordered association
list; dictionaries preserve insertion order in Python. -/
def EXPENSE_CATEGORIES : List (List Char × List (List Char)) :=
  [("food".data,
    ["restaurant".data, "cafe".data, "pizza".data, "burger".data, "coffee".data,
     "grocery".data, "supermarket".data, "fresh foods".data]),
   ("transportation".data,
    ["uber".data, "lyft".data, "taxi".data, "gas".data, "fuel".data, "parking".data,
     "metro".data]),
   ("shopping".data,
    ["amazon".data, "walmart".data, "target".data, "mall".data, "store".data, "shop".data]),
   ("utilities".data,
    ["electric".data, "water".data, "internet".data, "phone".data, "cable".data]),
   ("entertainment".data,
    ["movie".data, "theater".data, "netflix".data, "spotify".data, "game".data]),
   ("healthcare".data,
    ["pharmacy".data, "doctor".data, "hospital".data, "clinic".data, "medical".data]),
   ("other".data, [])]

/-- categorize_expense of app.py lines 165 to 170: lowercase the vendor and
description joined by a space, return the first category one of whose
keywords occurs as a substring, default other. -/
def categorize_expense (vendor description : List Char) : List Char :=
  match EXPENSE_CATEGORIES.find?
      (fun ck => ck.2.any (fun kw => containsSub kw (pyLower (vendor ++ ' ' :: description)))) with
  | some ck => ck.1
  | none => "other".data

/-- Outcome of the upload branch of app.py lines 196 to 209: either only a
warning is shown, or a record is parsed, categorised and inserted. -/
inductive UploadOutcome where
  | warned : UploadOutcome
  | recorded : ExpenseRecord → List Char → UploadOutcome
deriving DecidableEq, Repr

/-- The decision of app.py lines 196 to 207: empty stripped OCR text warns
and creates nothing, otherwise the record is extracted, categorised and
persisted. -/
def handle_uploaded_text (raw : List Char) (pd : List Char → Option PyDate) (today : PyDate) :
    UploadOutcome :=
  if pyStrip raw = [] then UploadOutcome.warned
  else
    UploadOutcome.recorded (parse_expense_data raw pd today)
      (categorize_expense (parse_expense_data raw pd today).vendor
        (parse_expense_data raw pd today).description)

/-- Cell values sent to the spreadsheet service: the date, vendor and
category strings and the numeric amount in cents. -/
inductive GVal where
  | s : List Char → GVal
  | n : Nat → GVal
deriving DecidableEq, Repr

/-- export_to_google_sheets of app.py lines 71 to 92.  The service is a
parameter: acquiring it can fail (get_google_sheets_service raises inside
the try block), and the append call can fail; both are caught by the
except branch, which returns False.  On success the single four-value row
is appended and True is returned. -/
def export_to_google_sheets (e : ExpenseRecord) (category sid : List Char)
    (svc : Except (List Char) (List Char → List (List GVal) → Except (List Char) Unit)) : Bool :=
  match svc with
  | Except.error _ => false
  | Except.ok app =>
    match app sid [[GVal.s e.date, GVal.n e.amount, GVal.s e.vendor, GVal.s category]] with
    | Except.ok _ => true
    | Except.error _ => false

/-- Example text of the amount-selection test of the specification. -/
def exC2 : List Char := ("Item 12.50 Total 45.00 Fee 3.20").data

/-- Example text of the date-priority test of the specification, with the
slash date placed before the ISO date in the text. -/
def exC3 : List Char := ("01/05/2024 2024-01-05").data

/-- Example text of the vendor-skip test of the specification. -/
def exC4 : List Char := ("$12.50\nRECEIPT\nJoe\x27s Diner\nTax: 1.00").data

/-- A fixed current date for witnesses. -/
def today0 : PyDate := ⟨2024, 1, 5⟩

/-- A date parser that never succeeds, for witnesses. -/
def pd0 : List Char → Option PyDate := fun _ => none

/-- A date parser recognising the single ISO token of exC3, for witnesses. -/
def pdTest : List Char → Option PyDate :=
  fun s => if s = ("2024-01-05").data then some ⟨2024, 1, 5⟩ else none

theorem le_foldl_max (l : List Nat) : ∀ a : Nat, a ≤ l.foldl max a := by
  induction l with
  | nil => intro a; exact Nat.le_refl a
  | cons b t ih =>
    intro a
    rw [List.foldl_cons]
    exact le_trans (Nat.le_max_left a b) (ih (max a b))

theorem mem_le_foldl_max (l : List Nat) : ∀ a v : Nat, v ∈ l → v ≤ l.foldl max a := by
  induction l with
  | nil => intro a v hv; cases hv
  | cons b t ih =>
    intro a v hv
    rw [List.foldl_cons]
    rcases List.mem_cons.mp hv with rfl | h
    · exact le_trans (Nat.le_max_right a v) (le_foldl_max t (max a v))
    · exact ih (max a b) v h

theorem foldl_max_self_or_mem (l : List Nat) : ∀ a : Nat, l.foldl max a = a ∨ l.foldl max a ∈ l := by
  induction l with
  | nil => intro a; exact Or.inl rfl
  | cons b t ih =>
    intro a
    rw [List.foldl_cons]
    rcases ih (max a b) with h | h
    · rcases max_choice a b with h2 | h2
      · exact Or.inl (by rw [h, h2])
      · exact Or.inr (by rw [h, h2]; exact List.mem_cons_self b t)
    · exact Or.inr (List.mem_cons_of_mem b h)

/-- C2: the extracted amount is computed from the comma-normalised text;
it is 0 when no amount token matches, and otherwise it is the maximum of
the values of all leftmost non-overlapping matches of the amount regex
(one or more digits, a dot, exactly two digits), all in cents. -/
theorem C2_amount_max (text : List Char) (pd : List Char → Option PyDate) (today : PyDate) :
    (parse_expense_data text pd today).amount = total_amount text ∧
    (amountVals text = [] → total_amount text = 0) ∧
    (∀ v ∈ amountVals text, v ≤ total_amount text) ∧
    (amountVals text ≠ [] → total_amount text ∈ amountVals text) := by
  refine ⟨rfl, ?_, ?_, ?_⟩
  · intro h
    unfold total_amount
    rw [h]
  · intro v hv
    unfold total_amount
    rcases hA : amountVals text with _ | ⟨a, r⟩
    · rw [hA] at hv; cases hv
    · rw [hA] at hv
      rcases List.mem_cons.mp hv with rfl | h
      · exact le_foldl_max r v
      · exact mem_le_foldl_max r a v h
  · intro h
    unfold total_amount
    rcases hA : amountVals text with _ | ⟨a, r⟩
    · exact absurd hA h
    · show List.foldl max a r ∈ a :: r
      rcases foldl_max_self_or_mem r a with h2 | h2
      · rw [h2]; exact List.mem_cons_self a r
      · exact List.mem_cons_of_mem a h2

/-- Witness for C2 at a text containing the tokens 12.50, 45.00 and 3.20:
the extracted amount is 45.00, that is 4500 cents, which is among the
matched values. -/
theorem C2_amount_max_witness :
    (parse_expense_data exC2 pd0 today0).amount = 4500 ∧
    total_amount exC2 ∈ amountVals exC2 :=
  ⟨by rw [(C2_amount_max exC2 pd0 today0).1]; decide,
   (C2_amount_max exC2 pd0 today0).2.2.2 (by decide)⟩

/-- C3: the date candidate is found by trying the four patterns in the
fixed priority order; if every pattern before p in the list fails to match
anywhere and p matches with first occurrence s, the candidate is s and no
later pattern is consulted. -/
theorem C3_date_priority (text : List Char) (ps : List K) (p : K) (qs : List K) (s : List Char)
    (hsplit : date_patterns = ps ++ p :: qs)
    (hfail : ∀ q ∈ ps, searchPat q text = none)
    (hhit : searchPat p text = some s) :
    date_found text = some s := by
  have key : ∀ l1 : List K, (∀ q ∈ l1, searchPat q text = none) →
      firstMatch (l1 ++ p :: qs) text = some s := by
    intro l1
    induction l1 with
    | nil => intro _; simp [firstMatch, hhit]
    | cons a t ih =>
      intro hf
      have ha := hf a (List.mem_cons_self a t)
      simp only [List.cons_append, firstMatch, ha]
      exact ih (fun q hq => hf q (List.mem_cons_of_mem a hq))
  unfold date_found
  rw [hsplit]
  exact key ps hfail

/-- Witness for C3 at a text containing the slash date 01/05/2024 before
the ISO date 2024-01-05: the ISO pattern is tried first and wins. -/
theorem C3_date_priority_witness : date_found exC3 = some (("2024-01-05").data) :=
  C3_date_priority exC3 [] matchP1 [matchP2, matchP3, matchP4] (("2024-01-05").data) rfl
    (by intro q hq; cases hq) (by decide)

theorem space_not_digit {c : Char} (h : isPySpace c = true) : Char.isDigit c = false := by
  simp only [isPySpace, Bool.or_eq_true, decide_eq_true_eq] at h
  rcases h with ((((rfl | rfl) | rfl) | rfl) | rfl) | rfl <;> decide

theorem space_not_alpha {c : Char} (h : isPySpace c = true) : Char.isAlpha c = false := by
  simp only [isPySpace, Bool.or_eq_true, decide_eq_true_eq] at h
  rcases h with ((((rfl | rfl) | rfl) | rfl) | rfl) | rfl <;> decide

theorem space_commaToDot {c : Char} (h : isPySpace c = true) : commaToDot c = c := by
  simp only [isPySpace, Bool.or_eq_true, decide_eq_true_eq] at h
  rcases h with ((((rfl | rfl) | rfl) | rfl) | rfl) | rfl <;> decide

theorem kRep_head_false {p : Char → Bool} {k : K} {lo hi : Nat} {c : Char} {cs : List Char}
    (hp : p c = false) (hlo : lo ≠ 0) : kRep p lo hi k (c :: cs) = none := by
  cases hi with
  | zero => simp [kRep, hlo]
  | succ n => simp [kRep, hp, hlo]

theorem searchPat_none_of {m : K} :
    ∀ {l : List Char}, (∀ c ∈ l, ∀ cs : List Char, m (c :: cs) = none) → searchPat m l = none := by
  intro l
  induction l with
  | nil => intro _; rfl
  | cons c rest ih =>
    intro h
    have hc := h c (List.mem_cons_self c rest) rest
    simp only [searchPat, hc]
    exact ih (fun a ha cs => h a (List.mem_cons_of_mem c ha) cs)

theorem matchP1_space {c : Char} {cs : List Char} (h : isPySpace c = true) :
    matchP1 (c :: cs) = none := by
  unfold matchP1
  exact kRep_head_false (space_not_digit h) (by decide)

theorem matchP2_space {c : Char} {cs : List Char} (h : isPySpace c = true) :
    matchP2 (c :: cs) = none := by
  unfold matchP2
  exact kRep_head_false (space_not_digit h) (by decide)

theorem matchP3_space {c : Char} {cs : List Char} (h : isPySpace c = true) :
    matchP3 (c :: cs) = none := by
  unfold matchP3
  exact kRep_head_false (space_not_digit h) (by decide)

theorem matchP4_space {c : Char} {cs : List Char} (h : isPySpace c = true) :
    matchP4 (c :: cs) = none := by
  unfold matchP4
  exact kRep_head_false (space_not_alpha h) (by decide)

theorem date_found_space {l : List Char} (h : l.all isPySpace = true) : date_found l = none := by
  have hall := List.all_eq_true.mp h
  have h1 : searchPat matchP1 l = none :=
    searchPat_none_of (fun c hc cs => matchP1_space (hall c hc))
  have h2 : searchPat matchP2 l = none :=
    searchPat_none_of (fun c hc cs => matchP2_space (hall c hc))
  have h3 : searchPat matchP3 l = none :=
    searchPat_none_of (fun c hc cs => matchP3_space (hall c hc))
  have h4 : searchPat matchP4 l = none :=
    searchPat_none_of (fun c hc cs => matchP4_space (hall c hc))
  unfold date_found date_patterns
  simp [firstMatch, h1, h2, h3, h4]

theorem amountK_space {c : Char} {cs : List Char} (h : isPySpace c = true) :
    amountK (c :: cs) = none := by
  unfold amountK
  simp [kPlus, space_not_digit h]

theorem findallAux_space :
    ∀ (fuel : Nat) (l : List Char), l.all isPySpace = true → findallAux fuel l = [] := by
  intro fuel
  induction fuel with
  | zero => intro l _; rfl
  | succ n ih =>
    intro l h
    cases l with
    | nil => rfl
    | cons c rest =>
      have hc : isPySpace c = true := (List.all_eq_true.mp h) c (List.mem_cons_self c rest)
      have hrest : rest.all isPySpace = true := by
        rw [List.all_eq_true]
        intro x hx
        exact (List.all_eq_true.mp h) x (List.mem_cons_of_mem c hx)
      simp only [findallAux, amountK_space hc]
      exact ih rest hrest

theorem map_commaToDot_space : ∀ {l : List Char}, l.all isPySpace = true → l.map commaToDot = l := by
  intro l
  induction l with
  | nil => intro _; rfl
  | cons c rest ih =>
    intro h
    have hc : isPySpace c = true := (List.all_eq_true.mp h) c (List.mem_cons_self c rest)
    have hrest : rest.all isPySpace = true := by
      rw [List.all_eq_true]
      intro x hx
      exact (List.all_eq_true.mp h) x (List.mem_cons_of_mem c hx)
    simp only [List.map_cons, space_commaToDot hc, ih hrest]

theorem amountVals_space {l : List Char} (h : l.all isPySpace = true) : amountVals l = [] := by
  unfold amountVals findallAmounts
  rw [map_commaToDot_space h, findallAux_space _ _ h]
  rfl

theorem dropWhile_all {p : Char → Bool} : ∀ {l : List Char}, l.all p = true → l.dropWhile p = [] := by
  intro l
  induction l with
  | nil => intro _; rfl
  | cons c rest ih =>
    intro h
    have hc : p c = true := (List.all_eq_true.mp h) c (List.mem_cons_self c rest)
    have hrest : rest.all p = true := by
      rw [List.all_eq_true]
      intro x hx
      exact (List.all_eq_true.mp h) x (List.mem_cons_of_mem c hx)
    rw [List.dropWhile_cons_of_pos hc]
    exact ih hrest

theorem pyStrip_space {l : List Char} (h : l.all isPySpace = true) : pyStrip l = [] := by
  unfold pyStrip
  rw [dropWhile_all h]
  rfl

/-- C10: on the empty text and on every whitespace-only text the extractor
returns the fully defaulted record: amount 0, the processing date, vendor
Unknown and an empty description. -/
theorem C10_empty_defaults (text : List Char) (pd : List Char → Option PyDate) (today : PyDate)
    (h : text.all isPySpace = true) :
    parse_expense_data text pd today =
      { amount := 0, date := fmtISO today, vendor := "Unknown".data, description := [] } := by
  have hstrip := pyStrip_space h
  have h1 : total_amount text = 0 := by
    unfold total_amount
    rw [amountVals_space h]
  have h2 : date_parsed text pd today = fmtISO today := by
    unfold date_parsed
    rw [date_found_space h]
  have h3 : vendor_of text = "Unknown".data := by
    unfold vendor_of
    rw [hstrip]
    decide
  unfold parse_expense_data
  rw [h1, h2, h3, hstrip]
  rfl

/-- Witness for C10 at the empty text and at a whitespace-only text. -/
theorem C10_empty_defaults_witness :
    parse_expense_data [] pd0 today0 =
      { amount := 0, date := fmtISO today0, vendor := "Unknown".data, description := [] } ∧
    parse_expense_data (("  \t\n  ").data) pd0 today0 =
      { amount := 0, date := fmtISO today0, vendor := "Unknown".data, description := [] } :=
  ⟨C10_empty_defaults [] pd0 today0 (by decide),
   C10_empty_defaults (("  \t\n  ").data) pd0 today0 (by decide)⟩

/-- C7: when the OCR text is empty or whitespace-only the upload branch
only warns; no record is extracted, categorised or persisted. -/
theorem C7_empty_skip (raw : List Char) (pd : List Char → Option PyDate) (today : PyDate)
    (h : raw.all isPySpace = true) :
    handle_uploaded_text raw pd today = UploadOutcome.warned := by
  unfold handle_uploaded_text
  rw [if_pos (pyStrip_space h)]

/-- Witness for C7 at a whitespace-only OCR text. -/
theorem C7_empty_skip_witness :
    handle_uploaded_text ((" \n\t ").data) pd0 today0 = UploadOutcome.warned :=
  C7_empty_skip ((" \n\t ").data) pd0 today0 (by decide)

/-- C8: with the wall-clock fallback date held fixed, extraction and
categorisation are deterministic: equal inputs give equal outputs. -/
theorem C8_deterministic (t1 t2 v1 v2 d1 d2 : List Char) (pd : List Char → Option PyDate)
    (today : PyDate) (ht : t1 = t2) (hv : v1 = v2) (hd : d1 = d2) :
    parse_expense_data t1 pd today = parse_expense_data t2 pd today ∧
    categorize_expense v1 d1 = categorize_expense v2 d2 := by
  subst ht hv hd
  exact ⟨rfl, rfl⟩

/-- Witness for C8: two extractions of the same receipt text with the same
fixed clock give the same record, and two categorisations of the same
strings give the same label. -/
theorem C8_deterministic_witness :
    parse_expense_data exC4 pd0 today0 = parse_expense_data exC4 pd0 today0 ∧
    categorize_expense ("Uber".data) ("pizza".data) =
      categorize_expense ("Uber".data) ("pizza".data) :=
  C8_deterministic exC4 exC4 ("Uber".data) ("Uber".data) ("pizza".data) ("pizza".data)
    pd0 today0 rfl rfl rfl

theorem dropWhile_head_false {p : Char → Bool} :
    ∀ {l : List Char} {c : Char} {rest : List Char}, l.dropWhile p = c :: rest → p c = false := by
  intro l
  induction l with
  | nil => intro c rest h; cases h
  | cons a t ih =>
    intro c rest h
    by_cases hp : p a = true
    · rw [List.dropWhile_cons_of_pos hp] at h
      exact ih h
    · have hp2 : p a = false := by simpa using hp
      rw [List.dropWhile_cons_of_neg (by simp [hp2])] at h
      injection h with h1 h2
      subst h1
      exact hp2

theorem pyStrip_head_false {l : List Char} {c : Char} {rest : List Char}
    (h : pyStrip l = c :: rest) : isPySpace c = false := by
  unfold pyStrip at h
  have h2 : (l.dropWhile isPySpace).reverse.dropWhile isPySpace = (c :: rest).reverse := by
    rw [← h, List.reverse_reverse]
  obtain ⟨u, hu⟩ :=
    (List.dropWhile_suffix isPySpace :
      ((l.dropWhile isPySpace).reverse.dropWhile isPySpace) <:+ (l.dropWhile isPySpace).reverse)
  rw [h2] at hu
  have h4 := congrArg List.reverse hu
  rw [List.reverse_append, List.reverse_reverse, List.reverse_reverse, List.cons_append] at h4
  exact dropWhile_head_false h4.symm

theorem splitWSAux_ne_nil : ∀ (l acc : List Char), acc ≠ [] → splitWSAux l acc ≠ [] := by
  intro l
  induction l with
  | nil =>
    intro acc h
    simp only [splitWSAux]
    rw [if_neg h]
    exact List.cons_ne_nil _ _
  | cons c rest ih =>
    intro acc h
    simp only [splitWSAux]
    by_cases hc : isPySpace c = true
    · rw [if_pos hc, if_neg h]
      exact List.cons_ne_nil _ _
    · rw [if_neg hc]
      exact ih (c :: acc) (List.cons_ne_nil c acc)

theorem splitWSAux_words : ∀ (l acc w : List Char), w ∈ splitWSAux l acc → w ≠ [] := by
  intro l
  induction l with
  | nil =>
    intro acc w hw
    simp only [splitWSAux] at hw
    by_cases h : acc = []
    · rw [if_pos h] at hw
      cases hw
    · rw [if_neg h] at hw
      rcases List.mem_cons.mp hw with rfl | h2
      · simpa using h
      · cases h2
  | cons c rest ih =>
    intro acc w hw
    simp only [splitWSAux] at hw
    by_cases hc : isPySpace c = true
    · rw [if_pos hc] at hw
      by_cases h : acc = []
      · rw [if_pos h] at hw
        exact ih [] w hw
      · rw [if_neg h] at hw
        rcases List.mem_cons.mp hw with rfl | h2
        · simpa using h
        · exact ih [] w h2
    · rw [if_neg hc] at hw
      exact ih (c :: acc) w hw

theorem findVendor_ne_nil : ∀ ls : List (List Char), findVendor ls ≠ [] := by
  intro ls
  induction ls with
  | nil => decide
  | cons l t ih =>
    simp only [findVendor]
    by_cases h1 : (vendorSkipK (pyStrip l)).isSome = true
    · rw [if_pos h1]
      exact ih
    · rw [if_neg h1]
      by_cases h2 : vendorCond (pyStrip l) = true
      · rw [if_pos h2]
        rcases hw : pySplitWS (pyStrip l) with _ | ⟨w, ws⟩
        · exact ih
        · have hmem : w ∈ pySplitWS (pyStrip l) := by
            rw [hw]
            exact List.mem_cons_self w ws
          exact splitWSAux_words (pyStrip l) [] w hmem
      · rw [if_neg h2]
        exact ih

/-- C4: walking the stripped lines top to bottom, the vendor is the first
whitespace token of the first line that does not match the numeric skip
regex at its start, is longer than three characters and contains neither
receipt nor tax case-insensitively; if no line survives, the vendor is
Unknown. -/
theorem C4_vendor_rule :
    (∀ ls : List (List Char), (∀ x ∈ ls, survives (pyStrip x) = false) →
      findVendor ls = "Unknown".data) ∧
    (∀ (pre : List (List Char)) (l : List Char) (post : List (List Char)),
      (∀ x ∈ pre, survives (pyStrip x) = false) → survives (pyStrip l) = true →
      ∃ w ws, pySplitWS (pyStrip l) = w :: ws ∧ findVendor (pre ++ l :: post) = w) := by
  constructor
  · intro ls
    induction ls with
    | nil => intro _; rfl
    | cons l t ih =>
      intro h
      have hl := h l (List.mem_cons_self l t)
      have ht : ∀ x ∈ t, survives (pyStrip x) = false :=
        fun x hx => h x (List.mem_cons_of_mem l hx)
      simp only [findVendor]
      by_cases h1 : (vendorSkipK (pyStrip l)).isSome = true
      · rw [if_pos h1]
        exact ih ht
      · have h1f : (vendorSkipK (pyStrip l)).isSome = false := by simpa using h1
        have h2 : vendorCond (pyStrip l) = false := by
          have h5 := hl
          simp only [survives, h1f, Bool.not_false, Bool.true_and] at h5
          exact h5
        rw [if_neg h1, if_neg (by simp [h2])]
        exact ih ht
  · intro pre
    induction pre with
    | nil =>
      intro l post _ hl
      have h1f : (vendorSkipK (pyStrip l)).isSome = false := by
        have h5 := hl
        simp only [survives, Bool.and_eq_true, Bool.not_eq_true'] at h5
        exact h5.1
      have h2 : vendorCond (pyStrip l) = true := by
        have h5 := hl
        simp only [survives, Bool.and_eq_true] at h5
        exact h5.2
      have hlen : (pyStrip l).length > 3 := by
        have h5 := h2
        simp only [vendorCond, Bool.and_eq_true, decide_eq_true_eq] at h5
        exact h5.1.1
      rcases hline : pyStrip l with _ | ⟨c, rest⟩
      · rw [hline] at hlen
        simp at hlen
      · have hcs : isPySpace c = false := pyStrip_head_false hline
        have hne : pySplitWS (c :: rest) ≠ [] := by
          unfold pySplitWS
          simp only [splitWSAux]
          rw [if_neg (by simp [hcs])]
          exact splitWSAux_ne_nil rest [c] (List.cons_ne_nil c [])
        rcases hw : pySplitWS (c :: rest) with _ | ⟨w, ws⟩
        · exact absurd hw hne
        · refine ⟨w, ws, rfl, ?_⟩
          rw [List.nil_append]
          simp only [findVendor]
          rw [hline, if_neg (by simp [hline ▸ h1f]), if_pos (hline ▸ h2), hw]
    | cons a pre2 ih =>
      intro l post hpre hl
      have ha := hpre a (List.mem_cons_self a pre2)
      obtain ⟨w, ws, hw, hv⟩ :=
        ih l post (fun x hx => hpre x (List.mem_cons_of_mem a hx)) hl
      refine ⟨w, ws, hw, ?_⟩
      rw [List.cons_append]
      simp only [findVendor]
      by_cases h1 : (vendorSkipK (pyStrip a)).isSome = true
      · rw [if_pos h1]
        exact hv
      · have h1f : (vendorSkipK (pyStrip a)).isSome = false := by simpa using h1
        have h2 : vendorCond (pyStrip a) = false := by
          have h5 := ha
          simp only [survives, h1f, Bool.not_false, Bool.true_and] at h5
          exact h5
        rw [if_neg h1, if_neg (by simp [h2])]
        exact hv

/-- Witness for C4 at the lines of the specification example: the vendor
extracted from the four-line receipt is the first word of the third line. -/
theorem C4_vendor_rule_witness : vendor_of exC4 = ("Joe\x27s".data) := by
  obtain ⟨w, ws, hw, hv⟩ :=
    C4_vendor_rule.2 [("$12.50".data), ("RECEIPT".data)] ("Joe\x27s Diner".data)
      [("Tax: 1.00".data)] (by decide) (by decide)
  have hsplit : pySplitWS (pyStrip ("Joe\x27s Diner".data)) =
      ("Joe\x27s".data) :: [("Diner".data)] := by decide
  rw [hsplit] at hw
  injection hw with hw1 hw2
  have hlines : splitNL (pyStrip exC4) =
      [("$12.50".data), ("RECEIPT".data)] ++ ("Joe\x27s Diner".data) :: [("Tax: 1.00".data)] := by
    decide
  unfold vendor_of
  rw [hlines, hv, ← hw1]

theorem digitChar_lt10_isDigit : ∀ j : Nat, j < 10 → (digitChar j).isDigit = true := by
  intro j h
  interval_cases j <;> decide

theorem digitChar_mod_isDigit (k : Nat) : (digitChar (k % 10)).isDigit = true :=
  digitChar_lt10_isDigit _ (Nat.mod_lt _ (by decide))

theorem charVal_digitChar : ∀ j : Nat, j < 10 → charVal (digitChar j) = j := by
  intro j h
  interval_cases j <;> decide

theorem charVal_digitChar_mod (k : Nat) : charVal (digitChar (k % 10)) = k % 10 :=
  charVal_digitChar _ (Nat.mod_lt _ (by decide))

theorem monthLen_le31 (y m : Nat) : monthLen y m ≤ 31 := by
  unfold monthLen
  split_ifs <;> omega

theorem fmtISO_isValid {d : PyDate} (h : d.valid = true) : isValidISODate (fmtISO d) = true := by
  obtain ⟨y, m, dd⟩ := d
  simp only [PyDate.valid, Bool.and_eq_true, decide_eq_true_eq] at h
  obtain ⟨⟨⟨⟨⟨hy1, hy2⟩, hm1⟩, hm2⟩, hd1⟩, hd2⟩ := h
  have hdle : dd ≤ 31 := le_trans hd2 (monthLen_le31 y m)
  show isValidISODate (pad4 y ++ '-' :: (pad2 m ++ '-' :: pad2 dd)) = true
  simp only [pad4, pad2, List.cons_append, List.nil_append]
  simp only [isValidISODate, Bool.and_eq_true, beq_self_eq_true, and_true,
    digitChar_mod_isDigit, charVal_digitChar_mod, true_and]
  have hy : y / 1000 % 10 * 1000 + y / 100 % 10 * 100 + y / 10 % 10 * 10 + y % 10 = y := by
    omega
  have hm : m / 10 % 10 * 10 + m % 10 = m := by omega
  have hd : dd / 10 % 10 * 10 + dd % 10 = dd := by omega
  rw [hy, hm, hd]
  simp only [PyDate.valid, Bool.and_eq_true, decide_eq_true_eq]
  exact ⟨⟨⟨⟨⟨hy1, hy2⟩, hm1⟩, hm2⟩, hd1⟩, hd2⟩

/-- C1: for every text, every behaviour of the external date parser that
produces calendar-valid dates and every valid current date, the extractor
returns a record (it is a total function of its inputs) whose amount is
nonnegative, whose vendor is nonempty and whose date is a valid ISO
calendar date string. -/
theorem C1_extract_total (text : List Char) (pd : List Char → Option PyDate) (today : PyDate)
    (hpd : ∀ s d, pd s = some d → d.valid = true) (htoday : today.valid = true) :
    0 ≤ (parse_expense_data text pd today).amount ∧
    (parse_expense_data text pd today).vendor ≠ [] ∧
    isValidISODate (parse_expense_data text pd today).date = true := by
  refine ⟨Nat.zero_le _, ?_, ?_⟩
  · show vendor_of text ≠ []
    unfold vendor_of
    exact findVendor_ne_nil _
  · show isValidISODate (date_parsed text pd today) = true
    unfold date_parsed
    rcases hdf : date_found text with _ | s
    · exact fmtISO_isValid htoday
    · show isValidISODate
        (match pd s with | none => fmtISO today | some d => fmtISO d) = true
      rcases hps : pd s with _ | d
      · exact fmtISO_isValid htoday
      · exact fmtISO_isValid (hpd s d hps)

/-- Witness for C1 at a short text, a parser that always fails and a fixed
valid current date. -/
theorem C1_extract_total_witness :
    0 ≤ (parse_expense_data ("hello world".data) pd0 today0).amount ∧
    (parse_expense_data ("hello world".data) pd0 today0).vendor ≠ [] ∧
    isValidISODate (parse_expense_data ("hello world".data) pd0 today0).date = true :=
  C1_extract_total ("hello world".data) pd0 today0
    (by intro s d h; simp [pd0] at h) (by decide)

/-- C6: the returned date field is always a valid ISO calendar date string;
it is the formatted parsed date when a pattern matched and the parse
succeeded, and the formatted current date when no pattern matched or the
parse failed, and no error escapes. -/
theorem C6_date_fallback (text : List Char) (pd : List Char → Option PyDate) (today : PyDate)
    (hpd : ∀ s d, pd s = some d → d.valid = true) (htoday : today.valid = true) :
    isValidISODate (parse_expense_data text pd today).date = true ∧
    (date_found text = none → (parse_expense_data text pd today).date = fmtISO today) ∧
    (∀ s, date_found text = some s → pd s = none →
      (parse_expense_data text pd today).date = fmtISO today) ∧
    (∀ s d, date_found text = some s → pd s = some d →
      (parse_expense_data text pd today).date = fmtISO d) := by
  refine ⟨?_, ?_, ?_, ?_⟩
  · show isValidISODate (date_parsed text pd today) = true
    unfold date_parsed
    rcases hdf : date_found text with _ | s
    · exact fmtISO_isValid htoday
    · show isValidISODate
        (match pd s with | none => fmtISO today | some d => fmtISO d) = true
      rcases hps : pd s with _ | d
      · exact fmtISO_isValid htoday
      · exact fmtISO_isValid (hpd s d hps)
  · intro hdf
    show date_parsed text pd today = fmtISO today
    unfold date_parsed
    rw [hdf]
  · intro s hdf hps
    show date_parsed text pd today = fmtISO today
    unfold date_parsed
    rw [hdf]
    show (match pd s with | none => fmtISO today | some d => fmtISO d) = fmtISO today
    rw [hps]
  · intro s d hdf hps
    show date_parsed text pd today = fmtISO d
    unfold date_parsed
    rw [hdf]
    show (match pd s with | none => fmtISO today | some d => fmtISO d) = fmtISO d
    rw [hps]

/-- Witness for C6 at the date-bearing text exC3 with a parser recognising
its ISO candidate: the date field is the formatted parsed date and is a
valid ISO string. -/
theorem C6_date_fallback_witness :
    isValidISODate (parse_expense_data exC3 pdTest today0).date = true ∧
    (parse_expense_data exC3 pdTest today0).date = fmtISO ⟨2024, 1, 5⟩ := by
  have hpd : ∀ s d, pdTest s = some d → d.valid = true := by
    intro s d h
    unfold pdTest at h
    split at h
    · injection h with h2
      subst h2
      decide
    · cases h
  refine ⟨(C6_date_fallback exC3 pdTest today0 hpd (by decide)).1, ?_⟩
  exact (C6_date_fallback exC3 pdTest today0 hpd (by decide)).2.2.2
    (("2024-01-05").data) ⟨2024, 1, 5⟩ (by decide) (by decide)

theorem find?_first_of {α : Type} (f : α → Bool) :
    ∀ (pre : List α) (x : α) (post : List α), (∀ y ∈ pre, f y = false) → f x = true →
      List.find? f (pre ++ x :: post) = some x := by
  intro pre
  induction pre with
  | nil =>
    intro x post _ hx
    rw [List.nil_append]
    exact List.find?_cons_of_pos post hx
  | cons a t ih =>
    intro x post hpre hx
    have ha := hpre a (List.mem_cons_self a t)
    rw [List.cons_append, List.find?_cons_of_neg _ (by simp [ha])]
    exact ih x post (fun y hy => hpre y (List.mem_cons_of_mem a hy)) hx

/-- C5: the category is the first entry of the fixed ordered taxonomy one
of whose keywords occurs as a substring of the lower-cased vendor plus
space plus description; when no keyword of any category matches, the
category is other. -/
theorem C5_categorize_first (vendor description : List Char) :
    ((∀ ck ∈ EXPENSE_CATEGORIES, ∀ kw ∈ ck.2,
        containsSub kw (pyLower (vendor ++ ' ' :: description)) = false) →
      categorize_expense vendor description = "other".data) ∧
    (∀ (pre : List (List Char × List (List Char))) (ck : List Char × List (List Char))
        (post : List (List Char × List (List Char))),
      EXPENSE_CATEGORIES = pre ++ ck :: post →
      (∀ ck2 ∈ pre, ∀ kw ∈ ck2.2,
        containsSub kw (pyLower (vendor ++ ' ' :: description)) = false) →
      (∃ kw ∈ ck.2, containsSub kw (pyLower (vendor ++ ' ' :: description)) = true) →
      categorize_expense vendor description = ck.1) := by
  constructor
  · intro h
    unfold categorize_expense
    have hnone : EXPENSE_CATEGORIES.find?
        (fun ck => ck.2.any
          (fun kw => containsSub kw (pyLower (vendor ++ ' ' :: description)))) = none := by
      rw [List.find?_eq_none]
      intro ck hck
      simp only [Bool.not_eq_true, List.any_eq_false]
      intro kw hkw
      simp [h ck hck kw hkw]
    rw [hnone]
  · intro pre ck post hsplit hpre hex
    unfold categorize_expense
    rw [hsplit]
    have hfind : List.find?
        (fun ck => ck.2.any
          (fun kw => containsSub kw (pyLower (vendor ++ ' ' :: description))))
        (pre ++ ck :: post) = some ck := by
      apply find?_first_of
      · intro y hy
        simp only [List.any_eq_false]  -- hmm may not directly apply; fallback below
        intro kw hkw
        simp [hpre y hy kw hkw]
      · rw [List.any_eq_true]
        obtain ⟨kw, hkw, hc⟩ := hex
        exact ⟨kw, hkw, hc⟩
    rw [hfind]

/-- Witness for C5 at a vendor and description jointly containing both
pizza and uber: the food category wins since it is checked first. -/
theorem C5_categorize_first_witness :
    categorize_expense ("Uber".data) ("pizza and coffee".data) = ("food".data) := by
  have h := (C5_categorize_first ("Uber".data) ("pizza and coffee".data)).2
    [] EXPENSE_CATEGORIES.headI EXPENSE_CATEGORIES.tail (by decide) (by decide)
    ⟨("pizza".data), by decide, by decide⟩
  rw [h]
  decide

/-- C9: the export produces exactly one row of the four ordered values
date, amount, vendor and category; it returns true exactly when acquiring
the service and appending the row both succeed, and it returns false (it
never throws) in every other case. -/
theorem C9_export_row (e : ExpenseRecord) (category sid : List Char)
    (svc : Except (List Char) (List Char → List (List GVal) → Except (List Char) Unit)) :
    export_to_google_sheets e category sid svc = true ↔
      ∃ app, svc = Except.ok app ∧
        app sid [[GVal.s e.date, GVal.n e.amount, GVal.s e.vendor, GVal.s category]] =
          Except.ok () := by
  rcases svc with err | app
  · have h0 : export_to_google_sheets e category sid (Except.error err) = false := rfl
    rw [h0]
    constructor
    · intro h
      cases h
    · intro hex
      obtain ⟨app2, hok, _⟩ := hex
      cases hok
  · rcases happ : app sid [[GVal.s e.date, GVal.n e.amount, GVal.s e.vendor, GVal.s category]]
      with msg | u
    · have h0 : export_to_google_sheets e category sid (Except.ok app) = false := by
        show (match app sid
            [[GVal.s e.date, GVal.n e.amount, GVal.s e.vendor, GVal.s category]] with
          | Except.ok _ => true
          | Except.error _ => false) = false
        rw [happ]
      rw [h0]
      constructor
      · intro h
        cases h
      · intro hex
        obtain ⟨app2, hok, hrow⟩ := hex
        injection hok with hok2
        subst hok2
        rw [happ] at hrow
        cases hrow
    · cases u
      have h0 : export_to_google_sheets e category sid (Except.ok app) = true := by
        show (match app sid
            [[GVal.s e.date, GVal.n e.amount, GVal.s e.vendor, GVal.s category]] with
          | Except.ok _ => true
          | Except.error _ => false) = true
        rw [happ]
      rw [h0]
      constructor
      · intro _
        exact ⟨app, rfl, happ⟩
      · intro _
        rfl
